import Mathlib

/-!
Verification of the wasmer journaling subsystem specification against the
repository sources.

The shallow embedding below follows the source files:
  * `lib/wasix/src/journaling/concrete/boxed_journal.rs` (boxed capability
    forwarding),
  * `lib/wasi-types/src/lib.rs` (`dirent_to_le_bytes`),
  * `lib/c-api/src/wasm_c_api/wasi/mod.rs` (`wasi_version_t` conversions),
  * `lib/compiler/src/target.rs` (`Target`).

`anyhow::Result<T>` is embedded as `Except String T`; machine integers as
`Nat` with explicit reductions where overflow matters.  Parts of the
journaling subsystem that the repository sources do not contain (the entry
model, the concrete backends, the serialized format and the replay driver)
are modelled from the specification; each such definition says so in its
doc comment.
-/

set_option autoImplicit false

namespace Wasmer

/-- Modelled from the spec: the `JournalEntry` value type (spec §3).  The
repository sources do not contain the entry model itself; the variants here
are representative members of the families the spec lists (fd lifecycle,
data transfer, memory state, determinism inputs, checkpoint markers).
Bytes are carried as `Nat` values; validity (§3, §4.1) bounds them. -/
inductive JournalEntry : Type where
  | fdOpen (fd : Nat) (path : List Nat)
  | fdClose (fd : Nat)
  | fdWrite (fd : Nat) (data : List Nat)
  | memoryWrite (offset : Nat) (data : List Nat)
  | setClockTime (time : Nat)
  | checkpointBegin
  | checkpointEnd
  deriving DecidableEq, Repr

/-- Modelled from the spec: validity of an entry's payloads — file
descriptors are `u32` values, times and offsets are `u64` values, payload
bytes are octets, and payload sizes are bounded by the guest's linear
memory size (§3 invariants; §8 "for all valid JournalEntry values"). -/
def JournalEntry.valid : JournalEntry → Prop
  | .fdOpen fd path => fd < 2 ^ 32 ∧ path.length < 2 ^ 32 ∧ ∀ b ∈ path, b < 256
  | .fdClose fd => fd < 2 ^ 32
  | .fdWrite fd data => fd < 2 ^ 32 ∧ data.length < 2 ^ 32 ∧ ∀ b ∈ data, b < 256
  | .memoryWrite offset data =>
      offset < 2 ^ 64 ∧ data.length < 2 ^ 32 ∧ ∀ b ∈ data, b < 256
  | .setClockTime time => time < 2 ^ 64
  | .checkpointBegin => True
  | .checkpointEnd => True

instance (e : JournalEntry) : Decidable e.valid := by
  cases e <;> simp [JournalEntry.valid] <;> infer_instance

/-- `Box<T>` from `boxed_journal.rs`: an owning pointer; `deref` is the
`Deref::deref` used by every forwarding implementation. -/
structure Box (α : Type) : Type where
  deref : α

/-- The type-erased `DynReadableJournal` trait object: a record of the
observable results of its two capability methods
(`read(&self) -> anyhow::Result<Option<JournalEntry>>` and
`as_restarted(&self) -> anyhow::Result<Box<DynReadableJournal>>`), the
contract every concrete backend implements (spec §4.2). -/
inductive DynReadableJournal : Type where
  | mk : Except String (Option JournalEntry) →
      Except String DynReadableJournal → DynReadableJournal

/-- `read` on the underlying trait object: the first vtable slot. -/
def DynReadableJournal.read : DynReadableJournal → Except String (Option JournalEntry)
  | .mk r _ => r

/-- `as_restarted` on the underlying trait object: the second vtable slot. -/
def DynReadableJournal.asRestarted : DynReadableJournal → Except String DynReadableJournal
  | .mk _ s => s

/-- The type-erased `DynWritableJournal` trait object:
`write(&self, entry) -> anyhow::Result<()>`. -/
structure DynWritableJournal : Type where
  writeFn : JournalEntry → Except String Unit

/-- `write` on the underlying trait object. -/
def DynWritableJournal.write (j : DynWritableJournal) (entry : JournalEntry) :
    Except String Unit :=
  j.writeFn entry

/-- The type-erased `DynJournal` trait object: both capabilities over the
same underlying journal object. -/
structure DynJournal : Type where
  readFn : Except String (Option JournalEntry)
  asRestartedFn : Except String DynReadableJournal
  writeFn : JournalEntry → Except String Unit

/-- `read` on the underlying `DynJournal` object. -/
def DynJournal.read (j : DynJournal) : Except String (Option JournalEntry) :=
  j.readFn

/-- `as_restarted` on the underlying `DynJournal` object. -/
def DynJournal.asRestarted (j : DynJournal) : Except String DynReadableJournal :=
  j.asRestartedFn

/-- `write` on the underlying `DynJournal` object. -/
def DynJournal.write (j : DynJournal) (entry : JournalEntry) : Except String Unit :=
  j.writeFn entry

/-- `impl ReadableJournal for Box<DynReadableJournal>`, method `read`
(`boxed_journal.rs` lines 5–8): `self.deref().read()`. -/
def Box.read (b : Box DynReadableJournal) : Except String (Option JournalEntry) :=
  b.deref.read

/-- `impl ReadableJournal for Box<DynReadableJournal>`, method
`as_restarted` (`boxed_journal.rs` lines 10–12): `self.deref().as_restarted()`. -/
def Box.asRestarted (b : Box DynReadableJournal) : Except String DynReadableJournal :=
  b.deref.asRestarted

/-- `impl WritableJournal for Box<DynWritableJournal>`, method `write`
(`boxed_journal.rs` lines 15–19): `self.deref().write(entry)`. -/
def Box.write (b : Box DynWritableJournal) (entry : JournalEntry) : Except String Unit :=
  b.deref.write entry

/-- `impl ReadableJournal for Box<DynJournal>`, method `read`
(`boxed_journal.rs` lines 21–24): `self.deref().read()`. -/
def Box.journalRead (b : Box DynJournal) : Except String (Option JournalEntry) :=
  b.deref.read

/-- `impl ReadableJournal for Box<DynJournal>`, method `as_restarted`
(`boxed_journal.rs` lines 26–28): `self.deref().as_restarted()`. -/
def Box.journalAsRestarted (b : Box DynJournal) : Except String DynReadableJournal :=
  b.deref.asRestarted

/-- `impl WritableJournal for Box<DynJournal>`, method `write`
(`boxed_journal.rs` lines 31–34): `self.deref().write(entry)`. -/
def Box.journalWrite (b : Box DynJournal) (entry : JournalEntry) : Except String Unit :=
  b.deref.write entry

/-- Modelled from the spec: the in-memory backend (spec §4.3) — "an ordered,
growable sequence of entries held for the lifetime of the owning object;
`Readable` cursors are independent indices into a shared, append-only
sequence".  The repository sources do not contain the concrete backends.
Interior mutability behind `&self` is made explicit: `read` returns its
result together with the advanced reader. -/
structure MemoryJournal : Type where
  entries : List JournalEntry
  cursor : Nat
  deriving DecidableEq, Repr

/-- Modelled from the spec: `Readable.read()` on the in-memory backend —
the next entry in order, or the explicit end-of-stream result `none`
(spec §4.2); a pure advance of the cursor, never an error. -/
def MemoryJournal.read (j : MemoryJournal) :
    Except String (Option JournalEntry × MemoryJournal) :=
  match j.entries.get? j.cursor with
  | some e => .ok (some e, { j with cursor := j.cursor + 1 })
  | none => .ok (none, j)

/-- Modelled from the spec: `Writable.write(entry)` on the in-memory
backend — a serialized append at the tail (spec §4.2/§4.3). -/
def MemoryJournal.write (j : MemoryJournal) (e : JournalEntry) :
    Except String MemoryJournal :=
  .ok { j with entries := j.entries ++ [e] }

/-- Modelled from the spec: `Readable.as_restarted()` on the in-memory
backend — a new independent cursor over the same shared sequence,
positioned at the beginning (spec §4.2/§4.3). -/
def MemoryJournal.asRestarted (j : MemoryJournal) : Except String MemoryJournal :=
  .ok { entries := j.entries, cursor := 0 }

/-- Drain a reader: repeatedly call `read`, collecting entries until the
end-of-stream result or an error; `fuel` bounds the number of calls. -/
def MemoryJournal.readAll (j : MemoryJournal) (fuel : Nat) : List JournalEntry :=
  match fuel with
  | 0 => []
  | fuel + 1 =>
    match j.read with
    | .ok (some e, j2) => e :: j2.readAll fuel
    | .ok (none, _) => []
    | .error _ => []

/-- Write a list of entries in order, stopping at the first failure. -/
def MemoryJournal.writeAll (j : MemoryJournal) :
    List JournalEntry → Except String MemoryJournal
  | [] => .ok j
  | e :: rest =>
    match j.write e with
    | .ok j2 => j2.writeAll rest
    | .error msg => .error msg

/-- The empty journal stream of a freshly instantiated guest (spec §3
"Lifecycle"). -/
def MemoryJournal.empty : MemoryJournal :=
  { entries := [], cursor := 0 }

/-- Modelled from the spec: the serialization of concurrent producers into
a single total order (spec §5 "all producers funnel into a single logical
total order"; §4.2 "concurrent writes are serialized").  `Interleaving ls
order` holds when `order` is a merge of the producers' per-thread entry
lists `ls` that preserves each producer's own order — exactly the set of
outcomes a linearizable backend may choose. -/
inductive Interleaving : List (List JournalEntry) → List JournalEntry → Prop where
  | nil (ls : List (List JournalEntry)) (h : ∀ l ∈ ls, l = []) : Interleaving ls []
  | step (ls : List (List JournalEntry)) (i : Nat) (x : JournalEntry)
      (l : List JournalEntry) (out : List JournalEntry)
      (hi : i < ls.length) (hget : ls[i] = x :: l)
      (htail : Interleaving (ls.set i l) out) : Interleaving ls (x :: out)

/-- Modelled from the spec: the state set of the replay driver (spec §4.5):
`Scanning`, `Replaying`, `Done`, `Failed`. -/
inductive ReplayState : Type where
  | scanning
  | replaying
  | done
  | failed (err : String)
  deriving DecidableEq, Repr

/-- Modelled from the spec: the runtime instance being reconstructed during
replay — the guest's linear memory (a byte list whose length is the memory
bound) and its table of open file descriptors (spec §4.5, §3). -/
structure RuntimeState : Type where
  memory : List Nat
  openFds : List Nat
  deriving DecidableEq, Repr

/-- Overwrite the region `[offset, offset + data.length)` of `mem`. -/
def writeRegion (mem : List Nat) (offset : Nat) (data : List Nat) : List Nat :=
  mem.take offset ++ data ++ mem.drop (offset + data.length)

/-- Modelled from the spec: applying one entry to the runtime instance
during replay (spec §4.5).  An entry whose payload references an address
range outside the current linear-memory bounds is invalid and yields an
explicit `ReplayError` (spec §3 invariants); the function is total, so no
application can crash the host. -/
def applyEntry (st : RuntimeState) (e : JournalEntry) : Except String RuntimeState :=
  match e with
  | .memoryWrite offset data =>
    if offset + data.length ≤ st.memory.length then
      .ok { st with memory := writeRegion st.memory offset data }
    else
      .error "memory region out of bounds"
  | .fdOpen fd _ =>
    if fd ∈ st.openFds then
      .error "file descriptor collision"
    else
      .ok { st with openFds := st.openFds ++ [fd] }
  | .fdClose fd => .ok { st with openFds := st.openFds.filter (fun x => x ≠ fd) }
  | .fdWrite fd _ =>
    if fd ∈ st.openFds then .ok st else .error "write to unopened descriptor"
  | .setClockTime _ => .ok st
  | .checkpointBegin => .ok st
  | .checkpointEnd => .ok st

/-- Modelled from the spec: the sequential-apply loop of the replay driver
(spec §4.5): `Replaying → Done` on end-of-stream, `Replaying → Failed` on
an entry that fails to apply. -/
def replayAll (st : RuntimeState) : List JournalEntry → ReplayState × RuntimeState
  | [] => (.done, st)
  | e :: rest =>
    match applyEntry st e with
    | .ok st2 => replayAll st2 rest
    | .error msg => (.failed msg, st)

/-- Little-endian encoding of `n` into exactly `w` bytes (the value taken
modulo `256 ^ w`), as `to_le_bytes` does for fixed-width integers. -/
def natToLE : Nat → Nat → List Nat
  | 0, _ => []
  | w + 1, n => n % 256 :: natToLE w (n / 256)

/-- Little-endian decoding of a byte list back into a `Nat`. -/
def natFromLE : List Nat → Nat
  | [] => 0
  | b :: bs => b + 256 * natFromLE bs

/-- Modelled from the spec: the record tag of each entry kind (spec §4.1
"self-describing (tag + length)"). -/
def JournalEntry.tag : JournalEntry → Nat
  | .fdOpen _ _ => 1
  | .fdClose _ => 2
  | .fdWrite _ _ => 3
  | .memoryWrite _ _ => 4
  | .setClockTime _ => 5
  | .checkpointBegin => 6
  | .checkpointEnd => 7

/-- Modelled from the spec: the payload bytes of each entry kind — fixed
width little-endian scalars followed by the raw data bytes (spec §4.1,
§6 "a sequential file of length-prefixed, tagged, versioned entry
records"). -/
def JournalEntry.payload : JournalEntry → List Nat
  | .fdOpen fd path => natToLE 8 fd ++ path
  | .fdClose fd => natToLE 8 fd
  | .fdWrite fd data => natToLE 8 fd ++ data
  | .memoryWrite offset data => natToLE 8 offset ++ data
  | .setClockTime time => natToLE 8 time
  | .checkpointBegin => []
  | .checkpointEnd => []

/-- Modelled from the spec: the serialized record of one entry — one tag
byte, an 8-byte little-endian payload length, then the payload
(spec §4.1/§6). -/
def encodeEntry (e : JournalEntry) : List Nat :=
  e.tag :: (natToLE 8 e.payload.length ++ e.payload)

/-- Modelled from the spec: the self-describing framing layer — split one
length-prefixed, tagged record off the front of the input, returning the
tag, the payload body and the remaining bytes, or `none` on a truncated
record (spec §4.1/§6). -/
def decodeRecord (input : List Nat) : Option (Nat × List Nat × List Nat) :=
  match input with
  | [] => none
  | tag :: rest =>
    if 8 ≤ rest.length then
      let len := natFromLE (rest.take 8)
      if 8 + len ≤ rest.length then
        some (tag, (rest.drop 8).take len, (rest.drop 8).drop len)
      else none
    else none

/-- Modelled from the spec: parsing one record body according to its tag
(spec §4.1); an unrecognized tag yields `none`. -/
def decodeBody (tag : Nat) (body : List Nat) : Option JournalEntry :=
  match tag with
  | 1 =>
    if 8 ≤ body.length then
      some (.fdOpen (natFromLE (body.take 8)) (body.drop 8))
    else none
  | 2 => if body.length = 8 then some (.fdClose (natFromLE body)) else none
  | 3 =>
    if 8 ≤ body.length then
      some (.fdWrite (natFromLE (body.take 8)) (body.drop 8))
    else none
  | 4 =>
    if 8 ≤ body.length then
      some (.memoryWrite (natFromLE (body.take 8)) (body.drop 8))
    else none
  | 5 => if body.length = 8 then some (.setClockTime (natFromLE body)) else none
  | 6 => if body.length = 0 then some .checkpointBegin else none
  | 7 => if body.length = 0 then some .checkpointEnd else none
  | _ => none

/-- Modelled from the spec: decoding one serialized entry from the front
of the input, returning the entry and the remaining bytes (spec §4.1/§6). -/
def decodeEntry (input : List Nat) : Option (JournalEntry × List Nat) :=
  match decodeRecord input with
  | some (tag, body, remaining) => (decodeBody tag body).map (fun e => (e, remaining))
  | none => none

/-- The `wasi::Filetype` enum of the external WASI type vocabulary
(spec §6; the generated crate is outside the repository sources).  The
variants and their `u8` discriminants follow the WASI snapshot
definition; `lib/wasi-types/src/lib.rs` uses `Filetype::Directory as u8`
in its test. -/
inductive Filetype : Type where
  | unknown
  | blockDevice
  | characterDevice
  | directory
  | regularFile
  | socketDgram
  | socketStream
  | symbolicLink
  deriving DecidableEq, Repr

/-- `filetype as u8`: the discriminant of the `Filetype` enum. -/
def Filetype.asU8 : Filetype → Nat
  | .unknown => 0
  | .blockDevice => 1
  | .characterDevice => 2
  | .directory => 3
  | .regularFile => 4
  | .socketDgram => 5
  | .socketStream => 6
  | .symbolicLink => 7

/-- The `wasi::Dirent` struct (external WASI type vocabulary): `d_next`
and `d_ino` are `u64` fields, `d_namlen` a `u32` field, `d_type` a
`Filetype`.  The machine-integer fields are embedded as `Nat`; the
little-endian encoders reduce them modulo their width. -/
structure Dirent : Type where
  d_next : Nat
  d_ino : Nat
  d_namlen : Nat
  d_type : Filetype
  deriving DecidableEq, Repr

/-- `mem::size_of::<wasi::Dirent>()`: 24 bytes — 8 + 8 + 4 + 1 rounded up
to 8-byte alignment; the unit test in `lib/wasi-types/src/lib.rs` pins the
serialized form to exactly these 24 bytes. -/
def direntSize : Nat := 24

/-- `dirent_to_le_bytes` from `lib/wasi-types/src/lib.rs` lines 115–125:
chains the little-endian bytes of `d_next`, `d_ino`, `d_namlen` and of
`u32::from(ent.d_type as u8)`, then asserts the result is
`mem::size_of::<wasi::Dirent>()` bytes long.  The `assert_eq!` is embedded
as returning `none` when the assertion would panic. -/
def dirent_to_le_bytes (ent : Dirent) : Option (List Nat) :=
  let out : List Nat :=
    natToLE 8 ent.d_next ++ natToLE 8 ent.d_ino ++ natToLE 4 ent.d_namlen ++
      natToLE 4 ent.d_type.asU8
  if out.length = direntSize then some out else none

/-- `WasiVersion` from the `wasmer-wasi` crate (outside the repository
sources); the exhaustive `match` in the `From<WasiVersion>` impl of
`lib/c-api/src/wasm_c_api/wasi/mod.rs` shows exactly these three
variants. -/
inductive WasiVersion : Type where
  | Latest
  | Snapshot0
  | Snapshot1
  deriving DecidableEq, Repr

/-- `wasi_version_t` from `lib/c-api/src/wasm_c_api/wasi/mod.rs` lines
187–195: `Latest = 0`, `Snapshot0 = 1`, `Snapshot1 = 2`,
`InvalidVersion = u32::MAX`. -/
inductive wasi_version_t : Type where
  | Latest
  | Snapshot0
  | Snapshot1
  | InvalidVersion
  deriving DecidableEq, Repr

/-- The `repr(u32)` discriminants of `wasi_version_t`. -/
def wasi_version_t.toU32 : wasi_version_t → Nat
  | .Latest => 0
  | .Snapshot0 => 1
  | .Snapshot1 => 2
  | .InvalidVersion => 2 ^ 32 - 1

/-- `impl From<WasiVersion> for wasi_version_t`
(`lib/c-api/src/wasm_c_api/wasi/mod.rs` lines 197–205). -/
def wasi_version_t.ofWasiVersion : WasiVersion → wasi_version_t
  | .Snapshot0 => .Snapshot0
  | .Snapshot1 => .Snapshot1
  | .Latest => .Latest

/-- `impl TryFrom<wasi_version_t> for WasiVersion`
(`lib/c-api/src/wasm_c_api/wasi/mod.rs` lines 207–218); the error type is
the `&'static str` message of the source. -/
def WasiVersion.tryFrom : wasi_version_t → Except String WasiVersion
  | .Snapshot0 => .ok .Snapshot0
  | .Snapshot1 => .ok .Snapshot1
  | .Latest => .ok .Latest
  | .InvalidVersion => .error "Invalid WASI version cannot be used"

/-- `CpuFeature` from `lib/compiler/src/target.rs` lines 20–39. -/
inductive CpuFeature : Type where
  | SSE2
  | SSE3
  | SSSE3
  | SSE41
  | SSE42
  | POPCNT
  | AVX
  | BMI1
  | BMI2
  | AVX2
  | AVX512DQ
  | AVX512VL
  | LZCNT
  deriving DecidableEq, Repr

/-- `target_lexicon::Triple` (an external crate): the parsed target triple.
`Target` stores it opaquely and never inspects it, so its components are
embedded as plain strings. -/
structure Triple : Type where
  architecture : String
  vendor : String
  operatingSystem : String
  environment : String
  deriving DecidableEq, Repr

/-- `Target` from `lib/compiler/src/target.rs` lines 106–110: a `triple`
together with an `EnumSet<CpuFeature>`, embedded as a `Finset`. -/
structure Target : Type where
  triple : Triple
  cpu_features : Finset CpuFeature
  deriving DecidableEq

/-- `Target::new` (`lib/compiler/src/target.rs` lines 113–118). -/
def Target.new (triple : Triple) (cpu_features : Finset CpuFeature) : Target :=
  { triple := triple, cpu_features := cpu_features }

/-! ### Supporting lemmas -/

theorem MemoryJournal.read_isOk (j : MemoryJournal) :
    ∃ v, j.read = .ok v := by
  unfold MemoryJournal.read
  rcases j.entries.get? j.cursor with _ | e <;> exact ⟨_, rfl⟩

theorem MemoryJournal.read_atEnd (j : MemoryJournal)
    (h : j.entries.length ≤ j.cursor) : j.read = .ok (none, j) := by
  unfold MemoryJournal.read
  rw [List.get?_eq_none.2 h]

theorem MemoryJournal.readAll_eq (j : MemoryJournal) (fuel : Nat) :
    j.readAll fuel = (j.entries.drop j.cursor).take fuel := by
  induction fuel generalizing j with
  | zero => simp [MemoryJournal.readAll]
  | succ n ih =>
    unfold MemoryJournal.readAll MemoryJournal.read
    rcases h : j.entries.get? j.cursor with _ | e
    · rw [List.get?_eq_none] at h
      simp [List.drop_eq_nil_of_le h]
    · have hlt : j.cursor < j.entries.length := by
        by_contra hc
        rw [List.get?_eq_none.2 (by omega)] at h
        exact Option.noConfusion h
      have hdrop : j.entries.drop j.cursor = e :: j.entries.drop (j.cursor + 1) := by
        rw [List.drop_eq_getElem_cons hlt]
        congr 1
        have h2 : j.entries[j.cursor]? = some e := by
          rw [← List.get?_eq_getElem?]
          exact h
        rw [List.getElem?_eq_getElem hlt] at h2
        exact Option.some.inj h2
      simp only [ih]
      rw [hdrop]
      rfl

theorem MemoryJournal.writeAll_eq (j : MemoryJournal) (l : List JournalEntry) :
    j.writeAll l = .ok { entries := j.entries ++ l, cursor := j.cursor } := by
  induction l generalizing j with
  | nil => simp [MemoryJournal.writeAll]
  | cons e rest ih =>
    unfold MemoryJournal.writeAll MemoryJournal.write
    simp only [ih]
    simp

theorem Interleaving.perm_flatten {ls : List (List JournalEntry)}
    {out : List JournalEntry} (h : Interleaving ls out) : out.Perm ls.flatten := by
  induction h with
  | nil ls h =>
    rw [List.flatten_eq_nil_iff.2 h]
  | step ls i x l out hi hget htail ih =>
    have hdecomp : ls = ls.take i ++ (x :: l) :: ls.drop (i + 1) := by
      rw [← hget, List.getElem_cons_drop, List.take_append_drop]
    have hset : ls.set i l = ls.take i ++ l :: ls.drop (i + 1) :=
      List.set_eq_take_cons_drop l hi
    have h1 : (x :: out).Perm
        (x :: ((ls.take i).flatten ++ (l ++ (ls.drop (i + 1)).flatten))) := by
      have hperm := ih.cons x
      rwa [hset, List.flatten_append, List.flatten_cons] at hperm
    have h2 : (x :: ((ls.take i).flatten ++ (l ++ (ls.drop (i + 1)).flatten))).Perm
        ((ls.take i).flatten ++ ((x :: l) ++ (ls.drop (i + 1)).flatten)) :=
      List.perm_middle.symm
    have h3 : (ls.take i).flatten ++ ((x :: l) ++ (ls.drop (i + 1)).flatten)
        = ls.flatten := by
      rw [← List.flatten_cons, ← List.flatten_append, ← hdecomp]
    exact h3 ▸ h1.trans h2

theorem natToLE_length (w n : Nat) : (natToLE w n).length = w := by
  induction w generalizing n with
  | zero => rfl
  | succ w ih => simp [natToLE, ih]

theorem natFromLE_natToLE {w n : Nat} (h : n < 256 ^ w) :
    natFromLE (natToLE w n) = n := by
  induction w generalizing n with
  | zero =>
    interval_cases n
    rfl
  | succ w ih =>
    have hdiv : n / 256 < 256 ^ w := by
      rw [Nat.div_lt_iff_lt_mul (by norm_num)]
      calc n < 256 ^ (w + 1) := h
        _ = 256 ^ w * 256 := by ring
    simp only [natToLE, natFromLE, ih hdiv]
    exact Nat.mod_add_div n 256

theorem take_natToLE_append (w n : Nat) (l : List Nat) :
    (natToLE w n ++ l).take w = natToLE w n :=
  List.take_left' (natToLE_length w n)

theorem drop_natToLE_append (w n : Nat) (l : List Nat) :
    (natToLE w n ++ l).drop w = l :=
  List.drop_left' (natToLE_length w n)

theorem natFromLE_natToLE_64 (n : Nat) (h : n < 2 ^ 64) :
    natFromLE (natToLE 8 n) = n :=
  natFromLE_natToLE (by
    rw [show (256 : Nat) ^ 8 = 2 ^ 64 by norm_num]
    exact h)

theorem JournalEntry.payload_length_lt {e : JournalEntry} (h : e.valid) :
    e.payload.length < 2 ^ 64 := by
  cases e <;>
    simp only [JournalEntry.payload, JournalEntry.valid, List.length_append,
      natToLE_length, List.length_nil] at h ⊢ <;> omega

theorem decodeRecord_encode (tag : Nat) (payload : List Nat)
    (h : payload.length < 2 ^ 64) :
    decodeRecord (tag :: (natToLE 8 payload.length ++ payload)) =
      some (tag, payload, []) := by
  have hlen : (natToLE 8 payload.length ++ payload).length = 8 + payload.length := by
    simp [natToLE_length]
  unfold decodeRecord
  simp only [hlen, take_natToLE_append, drop_natToLE_append,
    natFromLE_natToLE_64 _ h, List.take_length, List.drop_length]
  rw [if_pos (by omega), if_pos (by omega)]

theorem decodeBody_encode {e : JournalEntry} (h : e.valid) :
    decodeBody e.tag e.payload = some e := by
  have h64 : (2 : Nat) ^ 32 < 2 ^ 64 := by norm_num
  cases e with
  | fdOpen fd path =>
    obtain ⟨hfd, -, -⟩ := h
    simp [decodeBody, JournalEntry.tag, JournalEntry.payload, natToLE_length,
      take_natToLE_append, drop_natToLE_append, natFromLE_natToLE_64 fd (by omega)]
  | fdClose fd =>
    simp only [JournalEntry.valid] at h
    simp [decodeBody, JournalEntry.tag, JournalEntry.payload, natToLE_length,
      natFromLE_natToLE_64 fd (by omega)]
  | fdWrite fd data =>
    obtain ⟨hfd, -, -⟩ := h
    simp [decodeBody, JournalEntry.tag, JournalEntry.payload, natToLE_length,
      take_natToLE_append, drop_natToLE_append, natFromLE_natToLE_64 fd (by omega)]
  | memoryWrite offset data =>
    obtain ⟨hoff, -, -⟩ := h
    simp [decodeBody, JournalEntry.tag, JournalEntry.payload, natToLE_length,
      take_natToLE_append, drop_natToLE_append, natFromLE_natToLE_64 offset (by omega)]
  | setClockTime time =>
    simp only [JournalEntry.valid] at h
    simp [decodeBody, JournalEntry.tag, JournalEntry.payload, natToLE_length,
      natFromLE_natToLE_64 time (by omega)]
  | checkpointBegin => rfl
  | checkpointEnd => rfl

theorem Filetype.asU8_lt (ft : Filetype) : ft.asU8 < 256 := by
  cases ft <;> decide

theorem natToLE_four_of_lt (b : Nat) (h : b < 256) : natToLE 4 b = [b, 0, 0, 0] := by
  simp [natToLE, Nat.mod_eq_of_lt h, Nat.div_eq_of_lt h]

/-! ### Claims -/

/-- C1: forwarding through a boxed capability handle is transparent — for
every underlying journal value `j` and entry `e`, `read` and
`as_restarted` on `Box<DynReadableJournal>` wrapping `j` and `write e` on
`Box<DynWritableJournal>` wrapping `j` return exactly the results of the
corresponding calls on `j`; the box is pure delegation through `deref`,
with no buffering, reordering or state of its own. -/
theorem boxed_forwarding_transparent :
    (∀ j : DynReadableJournal,
      (Box.mk j).read = j.read ∧ (Box.mk j).asRestarted = j.asRestarted) ∧
    (∀ (j : DynWritableJournal) (e : JournalEntry),
      (Box.mk j).write e = j.write e) :=
  ⟨fun _ => ⟨rfl, rfl⟩, fun _ _ => rfl⟩

/-- C2: `read()` on a readable journal returns either the next entry
(`ok (some e)`) or the explicit end-of-stream result (`ok none`), a normal
terminal result distinct from the error case and never reported as an
error; the boxed form forwards the same result unchanged. -/
theorem read_end_of_stream_not_error :
    (∀ j : MemoryJournal, (∃ v, j.read = .ok v) ∧
      (∀ msg, j.read ≠ .error msg) ∧
      (j.entries.length ≤ j.cursor → j.read = .ok (none, j))) ∧
    (∀ d : DynReadableJournal, (Box.mk d).read = d.read) := by
  constructor
  · intro j
    obtain ⟨v, hv⟩ := j.read_isOk
    refine ⟨⟨v, hv⟩, ?_, j.read_atEnd⟩
    intro msg hmsg
    rw [hv] at hmsg
    exact Except.noConfusion hmsg
  · intro d
    rfl

theorem read_end_of_stream_not_error_witness :
    MemoryJournal.read { entries := [], cursor := 0 } =
      .ok (none, { entries := [], cursor := 0 }) :=
  (read_end_of_stream_not_error.1 { entries := [], cursor := 0 }).2.2 (by decide)

/-- C3: for every valid `JournalEntry`, encoding to the serialized record
and decoding back yields the original value (and consumes the whole
record). -/
theorem journal_entry_roundtrip (e : JournalEntry) (h : e.valid) :
    decodeEntry (encodeEntry e) = some (e, []) := by
  unfold decodeEntry encodeEntry
  rw [decodeRecord_encode e.tag e.payload (JournalEntry.payload_length_lt h)]
  simp [decodeBody_encode h]

theorem journal_entry_roundtrip_witness :
    (JournalEntry.fdWrite 3 [104, 105]).valid ∧
      decodeEntry (encodeEntry (JournalEntry.fdWrite 3 [104, 105])) =
        some (JournalEntry.fdWrite 3 [104, 105], []) :=
  ⟨by decide, journal_entry_roundtrip _ (by decide)⟩

/-- C4: applying a journal entry whose payload references an address range
outside the current linear-memory bounds makes the replay driver
transition to `Failed` with an explicit error, leaving the runtime state
untouched; `applyEntry` and `replayAll` are total functions, so no entry
can panic or crash the host. -/
theorem replay_oob_entry_fails (st : RuntimeState) (offset : Nat)
    (data : List Nat) (rest : List JournalEntry)
    (h : st.memory.length < offset + data.length) :
    replayAll st (.memoryWrite offset data :: rest) =
      (.failed "memory region out of bounds", st) := by
  have happly : applyEntry st (.memoryWrite offset data) =
      .error "memory region out of bounds" := by
    simp only [applyEntry]
    rw [if_neg (by omega)]
  simp [replayAll, happly]

theorem replay_oob_entry_fails_witness :
    ({ memory := [0, 0], openFds := [] } : RuntimeState).memory.length <
        1 + [7, 7].length ∧
      replayAll { memory := [0, 0], openFds := [] }
          [.memoryWrite 1 [7, 7]] =
        (.failed "memory region out of bounds",
          { memory := [0, 0], openFds := [] }) :=
  ⟨by decide, replay_oob_entry_fails _ 1 [7, 7] [] (by decide)⟩

/-- C6: `Box<DynJournal>` satisfies both the readable and the writable
capability at once, each operation delegating to the one underlying
journal object. -/
theorem boxed_journal_union_of_capabilities (j : DynJournal) (e : JournalEntry) :
    (Box.mk j).journalRead = j.read ∧
    (Box.mk j).journalAsRestarted = j.asRestarted ∧
    (Box.mk j).journalWrite e = j.write e :=
  ⟨rfl, rfl, rfl⟩

/-- C7: `as_restarted()` returns a new, independent reader positioned at
the beginning of the same logical stream — at the boxed-handle level it
only forwards through the shared reference, and on the in-memory backend
the returned reader shares the entries, has cursor `0` and replays the
whole stream; the caller and all other readers are separate values, which
the pure embedding leaves untouched. -/
theorem as_restarted_fresh_cursor :
    (∀ b : Box DynReadableJournal, b.asRestarted = b.deref.asRestarted) ∧
    (∀ j r : MemoryJournal, j.asRestarted = .ok r →
      r.entries = j.entries ∧ r.cursor = 0 ∧ r.readAll j.entries.length = j.entries) := by
  refine ⟨fun _ => rfl, fun j r h => ?_⟩
  have hr : r = { entries := j.entries, cursor := 0 } := by
    unfold MemoryJournal.asRestarted at h
    exact (Except.ok.inj h).symm
  subst hr
  refine ⟨rfl, rfl, ?_⟩
  rw [MemoryJournal.readAll_eq]
  simp

theorem as_restarted_fresh_cursor_witness :
    ({ entries := [JournalEntry.checkpointBegin], cursor := 0 } :
        MemoryJournal).entries =
        ({ entries := [JournalEntry.checkpointBegin], cursor := 1 } :
          MemoryJournal).entries ∧
      ({ entries := [JournalEntry.checkpointBegin], cursor := 0 } :
        MemoryJournal).cursor = 0 ∧
      MemoryJournal.readAll { entries := [JournalEntry.checkpointBegin], cursor := 0 }
          [JournalEntry.checkpointBegin].length =
        [JournalEntry.checkpointBegin] :=
  as_restarted_fresh_cursor.2
    { entries := [JournalEntry.checkpointBegin], cursor := 1 } _ rfl

/-- C8: `dirent_to_le_bytes` always passes its internal length assertion
and returns the 24-byte vector made of `d_next` as 8 little-endian bytes,
`d_ino` as 8 little-endian bytes, `d_namlen` as 4 little-endian bytes and
`d_type` as a `u8` zero-extended to a 4-byte little-endian `u32`. -/
theorem dirent_to_le_bytes_spec (ent : Dirent) :
    dirent_to_le_bytes ent =
      some (natToLE 8 ent.d_next ++ natToLE 8 ent.d_ino ++
        natToLE 4 ent.d_namlen ++ [ent.d_type.asU8, 0, 0, 0]) ∧
    (natToLE 8 ent.d_next ++ natToLE 8 ent.d_ino ++ natToLE 4 ent.d_namlen ++
      [ent.d_type.asU8, 0, 0, 0]).length = direntSize := by
  have h4 := natToLE_four_of_lt ent.d_type.asU8 ent.d_type.asU8_lt
  constructor
  · unfold dirent_to_le_bytes
    rw [if_pos (by simp [natToLE_length, direntSize])]
    rw [h4]
  · simp [natToLE_length, direntSize]

/-- C9: the C-ABI WASI-version conversions round-trip — converting any
`WasiVersion` to `wasi_version_t` and back succeeds with the original
value, and `try_from` fails exactly on `InvalidVersion`. -/
theorem wasi_version_roundtrip :
    (∀ v : WasiVersion,
      WasiVersion.tryFrom (wasi_version_t.ofWasiVersion v) = .ok v) ∧
    ∀ x : wasi_version_t,
      (∃ msg, WasiVersion.tryFrom x = .error msg) ↔ x = .InvalidVersion := by
  constructor
  · intro v
    cases v <;> rfl
  · intro x
    cases x <;> simp [WasiVersion.tryFrom]

/-- C5: when M producer threads each write K entries concurrently, the
backend serializes the calls into some interleaving `order` of the
producers' per-thread sequences; writing that serialization yields a
stream that reads back as exactly those M×K entries — each entry intact,
none lost, none duplicated (entry counts match the producers' multiset),
in an order that is a serialization of the concurrent writes. -/
theorem concurrent_writes_linearized (producers : List (List JournalEntry))
    (order : List JournalEntry) (M K : Nat)
    (hM : producers.length = M) (hK : ∀ l ∈ producers, l.length = K)
    (hinter : Interleaving producers order) :
    MemoryJournal.empty.writeAll order =
        .ok { entries := order, cursor := 0 } ∧
      order.length = M * K ∧
      (∀ e : JournalEntry, order.count e = producers.flatten.count e) ∧
      MemoryJournal.readAll { entries := order, cursor := 0 } order.length = order := by
  have hperm := hinter.perm_flatten
  have hmap : producers.map List.length = List.replicate M K := by
    refine List.eq_replicate_iff.2 ⟨by simp [hM], ?_⟩
    intro b hb
    obtain ⟨l, hl, rfl⟩ := List.mem_map.1 hb
    exact hK l hl
  have hlen : order.length = M * K := by
    rw [hperm.length_eq, List.length_flatten, hmap]
    simp [List.sum_replicate, smul_eq_mul]
  refine ⟨?_, hlen, fun e => hperm.count_eq e, ?_⟩
  · rw [MemoryJournal.writeAll_eq]
    rfl
  · rw [MemoryJournal.readAll_eq]
    simp

theorem concurrent_writes_linearized_witness :
    Interleaving
        [[JournalEntry.fdClose 1, JournalEntry.fdClose 2],
          [JournalEntry.fdClose 3, JournalEntry.fdClose 4]]
        [JournalEntry.fdClose 1, JournalEntry.fdClose 3,
          JournalEntry.fdClose 2, JournalEntry.fdClose 4] ∧
      [JournalEntry.fdClose 1, JournalEntry.fdClose 3,
        JournalEntry.fdClose 2, JournalEntry.fdClose 4].length = 2 * 2 ∧
      MemoryJournal.empty.writeAll
          [JournalEntry.fdClose 1, JournalEntry.fdClose 3,
            JournalEntry.fdClose 2, JournalEntry.fdClose 4] =
        .ok { entries := [JournalEntry.fdClose 1, JournalEntry.fdClose 3,
          JournalEntry.fdClose 2, JournalEntry.fdClose 4], cursor := 0 } := by
  have d0 : Interleaving [[], ([] : List JournalEntry)] [] := .nil _ (by decide)
  have d1 : Interleaving [[], [JournalEntry.fdClose 4]] [JournalEntry.fdClose 4] :=
    .step _ 1 (.fdClose 4) [] [] (by decide) rfl d0
  have d2 : Interleaving [[JournalEntry.fdClose 2], [JournalEntry.fdClose 4]]
      [JournalEntry.fdClose 2, JournalEntry.fdClose 4] :=
    .step _ 0 (.fdClose 2) [] [JournalEntry.fdClose 4] (by decide) rfl d1
  have d3 : Interleaving
      [[JournalEntry.fdClose 2], [JournalEntry.fdClose 3, JournalEntry.fdClose 4]]
      [JournalEntry.fdClose 3, JournalEntry.fdClose 2, JournalEntry.fdClose 4] :=
    .step _ 1 (.fdClose 3) [JournalEntry.fdClose 4]
      [JournalEntry.fdClose 2, JournalEntry.fdClose 4] (by decide) rfl d2
  have d4 : Interleaving
      [[JournalEntry.fdClose 1, JournalEntry.fdClose 2],
        [JournalEntry.fdClose 3, JournalEntry.fdClose 4]]
      [JournalEntry.fdClose 1, JournalEntry.fdClose 3,
        JournalEntry.fdClose 2, JournalEntry.fdClose 4] :=
    .step _ 0 (.fdClose 1) [JournalEntry.fdClose 2]
      [JournalEntry.fdClose 3, JournalEntry.fdClose 2, JournalEntry.fdClose 4]
      (by decide) rfl d3
  have main := concurrent_writes_linearized _ _ 2 2 (by decide) (by decide) d4
  exact ⟨d4, main.2.1, main.1⟩

/-- C10: `Target::new` preserves its arguments — the `triple` and
`cpu_features` accessors return exactly the values the target was
constructed from; both are pure reads. -/
theorem target_new_preserves_arguments (t : Triple) (f : Finset CpuFeature) :
    (Target.new t f).triple = t ∧ (Target.new t f).cpu_features = f :=
  ⟨rfl, rfl⟩

end Wasmer
